import Mathlib

/-!
Verification of the batch-inference driver `LLM` from
`aphrodite/endpoints/llm.py`: request-ID assignment, input
normalization/validation, submission, and the run-to-completion poll loop.

The engine (`AphroditeEngine`), the request-ID counter
(`aphrodite.common.utils.Counter`), `SamplingParams` and `RequestOutput`
are external collaborators whose sources are not part of the verified
slice; they are modelled from the specification's description of their
interfaces.  The driver code itself (`LLM.generate`, `LLM._add_request`,
`LLM._run_engine`) is translated statement by statement.

Python's in-place mutation of `self` is rendered as explicit state
passing: every operation returns the updated `LLM` state, and a raised
exception is rendered as an `Except.error` carrying the state at the
point of the raise.  The unbounded `while` poll loop is given explicit
fuel; a run that exhausts its fuel is `none` (the Python loop would
still be spinning), so every statement about a run that "returns
normally" is conditioned on a `some (..., .ok ...)` result.
-/

namespace Aphrodite

/-- Modelled from the spec: `SamplingParams` (from
`aphrodite.common.sampling_params`, not under `src/`) — §3: an opaque
parameter bundle (length limits, stop conditions, ...) that the driver
never inspects, only passes through; callers may omit it, in which case
a default-constructed bundle is used. -/
structure SamplingParams where
  max_tokens : Nat := 16
  stop : List String := []
deriving DecidableEq, Repr

/-- Modelled from the spec: `RequestOutput` (from
`aphrodite.common.outputs`, not under `src/`) — §3: a result entity
carrying the originating request's id, a `finished` flag, and an opaque
generated payload passed through unmodified. -/
structure RequestOutput where
  request_id : String
  finished : Bool
  text : String := ""
deriving DecidableEq, Repr

/-- Modelled from the spec: the Engine contract (§6).  `AphroditeEngine`
is not under `src/`; the driver consumes it purely through this
interface.  `σ` is the engine's (opaque) state, `ε` its (opaque)
engine-defined error type; a raising call is an `Except.error`. -/
structure EngineOps (σ ε : Type) where
  add_request : σ → String → Option String → SamplingParams → Option (List Nat) → Except ε σ
  step : σ → Except ε (List RequestOutput × σ)
  has_unfinished_requests : σ → Bool
  get_num_unfinished_requests : σ → Nat

/-- The `prompts` argument of `generate`: Python `Union[str, List[str]]`. -/
inductive Prompts where
  | str (s : String)
  | list (l : List String)
deriving DecidableEq, Repr

/-- `isinstance(prompts, str): prompts = [prompts]` — a bare string is one batch element. -/
def Prompts.toList : Prompts → List String
  | .str s => [s]
  | .list l => l

/-- Errors surfaced by `generate`: the driver's own `ValueError`
(`InvalidArgument` in the spec's taxonomy) or an engine-defined error
propagated unmodified. -/
inductive GenError (ε : Type) where
  | invalidArgument (msg : String)
  | engine (err : ε)
deriving DecidableEq, Repr

/-- One observable interaction with the progress bar (`tqdm`):
construction with a total, `pbar.update(n)`, `pbar.close()`.  The bar's
rendering is out of scope; only this event trace is modelled. -/
inductive ProgressEvent where
  | init (total : Nat)
  | update (n : Nat)
  | close
deriving DecidableEq, Repr

/-- The mutable state of an `LLM` instance: the engine handle
`self.aphrodite` and the request-ID counter `self.request_counter`. -/
structure LLM (σ : Type) where
  aphrodite : σ
  request_counter : Nat
deriving DecidableEq, Repr

/-- Modelled from the spec: `Counter` (from `aphrodite.common.utils`,
not under `src/`) — §4.1: a single instance-scoped monotonically
increasing counter; `next(counter)` yields the current value and
increments, so values are issued in strictly increasing order and never
reused. -/
def Counter.next (c : Nat) : Nat × Nat := (c, c + 1)

/-- `LLM._add_request`: draw a fresh id from the counter, render it with
`str(...)`, and call `self.aphrodite.add_request`.  The counter is
advanced before the engine call, so it stays advanced even when the
engine raises (in which case the engine state is unchanged from the
driver's view and the error is returned alongside the post-raise
state). -/
def _add_request {σ ε : Type} (ops : EngineOps σ ε) (s : LLM σ)
    (prompt : Option String) (sampling_params : SamplingParams)
    (prompt_token_ids : Option (List Nat)) : LLM σ × Option ε :=
  let r := Counter.next s.request_counter
  let request_id := toString r.1
  match ops.add_request s.aphrodite request_id prompt sampling_params prompt_token_ids with
  | .ok e => ({ aphrodite := e, request_counter := r.2 }, none)
  | .error err => ({ s with request_counter := r.2 }, some err)

/-- The submission `for i in range(num_requests)` loop of `generate`,
over the (already validated) index list: `prompts[i] if prompts is not
None else None` paired with `prompt_token_ids[i]` likewise, every
iteration calling `self._add_request`.  Stops at the first engine error,
returning the state reached so far together with that error. -/
def submitLoop {σ ε : Type} (ops : EngineOps σ ε) (sampling_params : SamplingParams)
    (pl : Option (List String)) (tl : Option (List (List Nat))) :
    List Nat → LLM σ → LLM σ × Option ε
  | [], s => (s, none)
  | i :: rest, s =>
    let prompt : Option String := pl.map fun l => l.getD i ""
    let token_ids : Option (List Nat) := tl.map fun l => l.getD i []
    match _add_request ops s prompt sampling_params token_ids with
    | (s', none) => submitLoop ops sampling_params pl tl rest s'
    | (s', some err) => (s', some err)

/-- The `while self.aphrodite.has_unfinished_requests()` poll loop of
`_run_engine`, with explicit fuel.  Each iteration calls `step`, appends
the finished outputs of the step to `outputs` in the order the engine
reported them, and (when `use_tqdm`) emits one `pbar.update(1)` event
per appended output.  A step that raises ends the run with that error
and the driver state as of the failed step; the locally accumulated
`outputs` are discarded, exactly as a Python `raise` discards the local
list. -/
def runLoop {σ ε : Type} (ops : EngineOps σ ε) (use_tqdm : Bool) :
    Nat → σ → List RequestOutput → List ProgressEvent →
    Option (σ × Except ε (List RequestOutput × List ProgressEvent))
  | 0, e, outputs, evs =>
    if ops.has_unfinished_requests e then none
    else some (e, .ok (outputs, evs))
  | fuel + 1, e, outputs, evs =>
    if ops.has_unfinished_requests e then
      match ops.step e with
      | .error err => some (e, .error err)
      | .ok (step_outputs, e') =>
        let fin := step_outputs.filter (·.finished)
        runLoop ops use_tqdm fuel e' (outputs ++ fin)
          (evs ++ if use_tqdm then fin.map fun _ => ProgressEvent.update 1 else [])
    else
      some (e, .ok (outputs, evs))

/-- `LLM._run_engine`: optionally start the progress bar with
`total = get_num_unfinished_requests()`, run the poll loop from an empty
output list, and close the bar after the loop exits normally. -/
def _run_engine {σ ε : Type} (ops : EngineOps σ ε) (fuel : Nat) (s : LLM σ)
    (use_tqdm : Bool) :
    Option (LLM σ × Except ε (List RequestOutput × List ProgressEvent)) :=
  match runLoop ops use_tqdm fuel s.aphrodite []
      (if use_tqdm then [ProgressEvent.init (ops.get_num_unfinished_requests s.aphrodite)]
       else []) with
  | none => none
  | some (e, .error err) => some ({ s with aphrodite := e }, .error err)
  | some (e, .ok (outs, evs)) =>
    some ({ s with aphrodite := e },
      .ok (outs, evs ++ if use_tqdm then [ProgressEvent.close] else []))

/-- The second validation of `generate`: both inputs present with
different lengths (`len(prompts) != len(prompt_token_ids)` under
`prompts is not None and prompt_token_ids is not None`). -/
def lengthMismatch (pl : Option (List String)) (tl : Option (List (List Nat))) : Bool :=
  match pl, tl with
  | some l, some t => decide (l.length ≠ t.length)
  | _, _ => false

/-- `num_requests` in `generate`: the length of `prompts` when present,
otherwise the length of `prompt_token_ids`. -/
def numRequests (pl : Option (List String)) (tl : Option (List (List Nat))) : Nat :=
  match pl with
  | some l => l.length
  | none => (tl.getD []).length

/-- `LLM.generate`, translated clause by clause: the two `ValueError`
validations, the bare-string promotion, the default `SamplingParams()`,
`num_requests`, the submission loop, then `self._run_engine(use_tqdm)`.
Result: `none` when the poll loop runs out of fuel, otherwise the final
driver state paired with either the propagated error or the collected
outputs and progress-event trace. -/
def generate {σ ε : Type} (ops : EngineOps σ ε) (fuel : Nat) (s : LLM σ)
    (prompts : Option Prompts) (sampling_params : Option SamplingParams)
    (prompt_token_ids : Option (List (List Nat))) (use_tqdm : Bool) :
    Option (LLM σ × Except (GenError ε) (List RequestOutput × List ProgressEvent)) :=
  if prompts.isNone ∧ prompt_token_ids.isNone then
    some (s, .error (.invalidArgument "Either prompts or prompt_token_ids must be provided."))
  else
    let pl : Option (List String) := prompts.map Prompts.toList
    if lengthMismatch pl prompt_token_ids then
      some (s, .error (.invalidArgument
        "The lenghts of prompts and prompt_token_ids must be the same."))
    else
      let sp := sampling_params.getD {}
      let num_requests := numRequests pl prompt_token_ids
      match submitLoop ops sp pl prompt_token_ids (List.range num_requests) s with
      | (s₁, some err) => some (s₁, .error (.engine err))
      | (s₁, none) =>
        match _run_engine ops fuel s₁ use_tqdm with
        | none => none
        | some (s₂, .error err) => some (s₂, .error (.engine err))
        | some (s₂, .ok (outs, evs)) => some (s₂, .ok (outs, evs))

/-- The per-step output batches the engine produces along the poll
loop's path from state `e` with the given fuel: the "completion
timeline" of the run.  It follows exactly the branches `runLoop` takes,
ending where the loop ends (no unfinished requests, exhausted fuel, or a
step error). -/
def stepTrace {σ ε : Type} (ops : EngineOps σ ε) : Nat → σ → List (List RequestOutput)
  | 0, _ => []
  | fuel + 1, e =>
    if ops.has_unfinished_requests e then
      match ops.step e with
      | .error _ => []
      | .ok (outs, e') => outs :: stepTrace ops fuel e'
    else []

/-- One observed call to `Engine.add_request`, with the exact arguments
the driver passed. -/
structure SubmitCall where
  request_id : String
  prompt : Option String
  sampling_params : SamplingParams
  prompt_token_ids : Option (List Nat)
deriving DecidableEq, Repr

/-- Wrap an engine so that every successful `add_request` call is logged
with its arguments; all other behaviour is unchanged.  Used to observe
which submissions the driver performs. -/
def instrument {σ ε : Type} (ops : EngineOps σ ε) : EngineOps (σ × List SubmitCall) ε where
  add_request := fun s rid p sp t =>
    match ops.add_request s.1 rid p sp t with
    | .ok e => .ok (e, s.2 ++ [⟨rid, p, sp, t⟩])
    | .error err => .error err
  step := fun s => (ops.step s.1).map fun r => (r.1, (r.2, s.2))
  has_unfinished_requests := fun s => ops.has_unfinished_requests s.1
  get_num_unfinished_requests := fun s => ops.get_num_unfinished_requests s.1

/-- A deterministic fake engine for concrete scenarios: it counts
pending requests and replays a fixed script of step results, each
finished output in a step retiring one pending request. -/
structure ScriptedEngine where
  pending : Nat
  script : List (List RequestOutput)
deriving DecidableEq, Repr

/-- The `EngineOps` instance of the scripted fake engine: `add_request`
registers one more pending request, `step` replays the next scripted
batch, and the unfinished count is the pending count. -/
def scriptedOps (ε : Type) : EngineOps ScriptedEngine ε where
  add_request := fun e _ _ _ _ => .ok { e with pending := e.pending + 1 }
  step := fun e =>
    match e.script with
    | [] => .ok ([], e)
    | outs :: rest =>
      .ok (outs, { pending := e.pending - (outs.filter (·.finished)).length, script := rest })
  has_unfinished_requests := fun e => decide (e.pending ≠ 0)
  get_num_unfinished_requests := fun e => e.pending

/-- The request-id strings the driver issues for `n` requests starting
from counter value `c`: `str(c), str(c+1), ...` in input order. -/
def submittedIds (c n : Nat) : List String :=
  (List.range n).map fun i => toString (c + i)

/-- A normally-returning poll loop produces exactly the finished outputs
of its step trace, in step order, appended to the accumulator, and emits
one `update 1` event per appended output when the bar is enabled. -/
theorem runLoop_ok_eq {σ ε : Type} (ops : EngineOps σ ε) (q : Bool) (fuel : Nat) :
    ∀ (e : σ) (acc : List RequestOutput) (evs : List ProgressEvent) e' outs evs',
    runLoop ops q fuel e acc evs = some (e', .ok (outs, evs')) →
    outs = acc ++ ((stepTrace ops fuel e).map fun l => l.filter (·.finished)).flatten ∧
    evs' = evs ++ (if q then
      ((stepTrace ops fuel e).map fun l => l.filter (·.finished)).flatten.map
        fun _ => ProgressEvent.update 1 else []) := by
  induction fuel with
  | zero =>
    intro e acc evs e' outs evs' h
    simp only [runLoop] at h
    split at h
    · exact absurd h (by simp)
    · rename_i hb
      simp only [Option.some.injEq, Prod.mk.injEq, Except.ok.injEq] at h
      obtain ⟨rfl, rfl, rfl⟩ := h
      simp [stepTrace]
  | succ fuel ih =>
    intro e acc evs e' outs evs' h
    simp only [runLoop] at h
    split at h
    · rename_i hb
      cases hs : ops.step e with
      | error err => rw [hs] at h; simp at h
      | ok r =>
        obtain ⟨souts, e2⟩ := r
        rw [hs] at h
        replace h : runLoop ops q fuel e2 (acc ++ souts.filter (·.finished))
            (evs ++ if q then (souts.filter (·.finished)).map fun _ => ProgressEvent.update 1
                    else []) = some (e', .ok (outs, evs')) := h
        obtain ⟨h1, h2⟩ := ih e2 _ _ _ _ _ h
        constructor
        · rw [h1]
          simp [stepTrace, hb, hs, List.append_assoc]
        · rw [h2]
          cases q <;> simp [stepTrace, hb, hs, List.append_assoc]
    · rename_i hb
      simp only [Option.some.injEq, Prod.mk.injEq, Except.ok.injEq] at h
      obtain ⟨rfl, rfl, rfl⟩ := h
      simp [stepTrace, hb]

/-- A poll loop that ends in an error ends at a state that still had
unfinished requests and whose `step` is exactly that error: the error is
the engine's own, propagated unmodified. -/
theorem runLoop_err_eq {σ ε : Type} (ops : EngineOps σ ε) (q : Bool) (fuel : Nat) :
    ∀ (e : σ) (acc : List RequestOutput) (evs : List ProgressEvent) e' err,
    runLoop ops q fuel e acc evs = some (e', .error err) →
    ops.has_unfinished_requests e' = true ∧ ops.step e' = .error err := by
  induction fuel with
  | zero =>
    intro e acc evs e' err h
    simp only [runLoop] at h
    split at h
    · exact absurd h (by simp)
    · simp at h
  | succ fuel ih =>
    intro e acc evs e' err h
    simp only [runLoop] at h
    split at h
    · rename_i hb
      cases hs : ops.step e with
      | error err0 =>
        rw [hs] at h
        simp only [Option.some.injEq, Prod.mk.injEq, Except.error.injEq] at h
        obtain ⟨rfl, rfl⟩ := h
        exact ⟨hb, hs⟩
      | ok r =>
        obtain ⟨souts, e2⟩ := r
        rw [hs] at h
        exact ih e2 _ _ _ _ h
    · simp at h

/-- Toggling the progress bar changes nothing the poll loop computes
apart from the event trace: same termination, same final engine state,
same outputs, same propagated error. -/
theorem runLoop_tqdm_eq {σ ε : Type} (ops : EngineOps σ ε) (fuel : Nat) :
    ∀ (e : σ) (acc : List RequestOutput) (evs₁ evs₂ : List ProgressEvent),
    (runLoop ops true fuel e acc evs₁).map (fun r => (r.1, r.2.map Prod.fst))
      = (runLoop ops false fuel e acc evs₂).map (fun r => (r.1, r.2.map Prod.fst)) := by
  induction fuel with
  | zero =>
    intro e acc evs₁ evs₂
    by_cases hb : ops.has_unfinished_requests e <;> simp [runLoop, hb, Except.map]
  | succ fuel ih =>
    intro e acc evs₁ evs₂
    by_cases hb : ops.has_unfinished_requests e
    · cases hs : ops.step e with
      | error err => simp [runLoop, hb, hs, Except.map]
      | ok r => obtain ⟨souts, e2⟩ := r; simp only [runLoop, hb, hs, if_true]; exact ih e2 _ _ _
    · simp [runLoop, hb, Except.map]

/-- The submission-logging wrapper is a projection of the base engine:
running the poll loop on the instrumented engine is running it on the
base engine, with the log carried along untouched (the loop never calls
`add_request`). -/
theorem runLoop_instr_eq {σ ε : Type} (ops : EngineOps σ ε) (q : Bool) (fuel : Nat) :
    ∀ (e : σ) (log : List SubmitCall) (acc : List RequestOutput) (evs : List ProgressEvent),
    runLoop (instrument ops) q fuel (e, log) acc evs
      = (runLoop ops q fuel e acc evs).map fun r => ((r.1, log), r.2) := by
  induction fuel with
  | zero =>
    intro e log acc evs
    by_cases hb : ops.has_unfinished_requests e <;> simp [runLoop, instrument, hb]
  | succ fuel ih =>
    intro e log acc evs
    by_cases hb : ops.has_unfinished_requests e
    · cases hs : ops.step e with
      | error err => simp [runLoop, instrument, hb, hs, Except.map]
      | ok r =>
        obtain ⟨souts, e2⟩ := r
        simp only [runLoop, instrument, hb, hs, if_true, Except.map]
        exact ih e2 log _ _
    · simp [runLoop, instrument, hb]

/-- `_add_request` always advances the request counter by one, whether
or not the engine accepts the request. -/
theorem _add_request_counter {σ ε : Type} (ops : EngineOps σ ε) (s : LLM σ)
    (pr : Option String) (sp : SamplingParams) (tid : Option (List Nat)) :
    (_add_request ops s pr sp tid).1.request_counter = s.request_counter + 1 := by
  unfold _add_request Counter.next
  cases h : ops.add_request s.aphrodite (toString s.request_counter) pr sp tid <;> simp [h]

/-- Splitting the submission loop at a list split: the tail runs only if
the head ran without an engine error. -/
theorem submitLoop_append {σ ε : Type} (ops : EngineOps σ ε) (sp : SamplingParams)
    (pl : Option (List String)) (tl : Option (List (List Nat))) :
    ∀ (is js : List Nat) (s : LLM σ),
    submitLoop ops sp pl tl (is ++ js) s =
      match submitLoop ops sp pl tl is s with
      | (s', none) => submitLoop ops sp pl tl js s'
      | (s', some err) => (s', some err) := by
  intro is
  induction is with
  | nil => intro js s; rfl
  | cons i is ih =>
    intro js s
    simp only [List.cons_append, submitLoop]
    cases h : _add_request ops s (pl.map fun l => l.getD i "") sp (tl.map fun l => l.getD i []) with
    | mk s' o => cases o <;> simp [ih]

/-- A fully successful submission loop advances the counter by the
number of submitted requests. -/
theorem submitLoop_ok_counter {σ ε : Type} (ops : EngineOps σ ε) (sp : SamplingParams)
    (pl : Option (List String)) (tl : Option (List (List Nat))) :
    ∀ (is : List Nat) (s s' : LLM σ),
    submitLoop ops sp pl tl is s = (s', none) →
    s'.request_counter = s.request_counter + is.length := by
  intro is
  induction is with
  | nil =>
    intro s s' h
    simp only [submitLoop, Prod.mk.injEq] at h
    simp [h.1.symm]
  | cons i is ih =>
    intro s s' h
    simp only [submitLoop] at h
    cases ha : _add_request ops s (pl.map fun l => l.getD i "") sp (tl.map fun l => l.getD i []) with
    | mk s₁ o =>
      rw [ha] at h
      cases o with
      | none =>
        have hc := _add_request_counter ops s (pl.map fun l => l.getD i "") sp
          (tl.map fun l => l.getD i [])
        rw [ha] at hc
        simp only at h
        have := ih s₁ s' h
        simp only at hc
        simp only [List.length_cons]
        omega
      | some err => simp at h

/-- The submit calls the driver performs for index list `is` starting at
counter value `c`: request id `str(c + position)`, the positionally
selected prompt and token ids, and the one shared sampling bundle. -/
def expectedCalls (sp : SamplingParams) (pl : Option (List String))
    (tl : Option (List (List Nat))) : List Nat → Nat → List SubmitCall
  | [], _ => []
  | i :: rest, c =>
    ⟨toString c, pl.map fun l => l.getD i "", sp, tl.map fun l => l.getD i []⟩
      :: expectedCalls sp pl tl rest (c + 1)

/-- `_add_request` on the instrumented engine: the base call plus, on
success, one appended log entry recording the exact arguments. -/
theorem _add_request_instr {σ ε : Type} (ops : EngineOps σ ε) (e : σ)
    (log : List SubmitCall) (c : Nat) (pr : Option String) (sp : SamplingParams)
    (tid : Option (List Nat)) :
    _add_request (instrument ops) ⟨(e, log), c⟩ pr sp tid =
      match ops.add_request e (toString c) pr sp tid with
      | .ok e₂ => (⟨(e₂, log ++ [⟨toString c, pr, sp, tid⟩]), c + 1⟩, none)
      | .error err => (⟨(e, log), c + 1⟩, some err) := by
  unfold _add_request Counter.next instrument
  cases h : ops.add_request e (toString c) pr sp tid <;> simp [h]

/-- On the instrumented engine, a fully successful submission loop
appends exactly the expected calls, in order, to the log. -/
theorem submitLoop_instr_log {σ ε : Type} (ops : EngineOps σ ε) (sp : SamplingParams)
    (pl : Option (List String)) (tl : Option (List (List Nat))) :
    ∀ (is : List Nat) (e : σ) (log : List SubmitCall) (c : Nat)
      (s' : LLM (σ × List SubmitCall)),
    submitLoop (instrument ops) sp pl tl is ⟨(e, log), c⟩ = (s', none) →
    s'.aphrodite.2 = log ++ expectedCalls sp pl tl is c := by
  intro is
  induction is with
  | nil =>
    intro e log c s' h
    simp only [submitLoop, Prod.mk.injEq] at h
    simp [← h.1, expectedCalls]
  | cons i is ih =>
    intro e log c s' h
    simp only [submitLoop, _add_request_instr] at h
    cases ha : ops.add_request e (toString c) (pl.map fun l => l.getD i "") sp
        (tl.map fun l => l.getD i []) with
    | ok e₂ =>
      rw [ha] at h
      simp only at h
      have := ih e₂ (log ++ [⟨toString c, pl.map fun l => l.getD i "", sp,
        tl.map fun l => l.getD i []⟩]) (c + 1) s' h
      simp only [this, expectedCalls, List.append_assoc, List.singleton_append]
    | error err =>
      rw [ha] at h
      simp at h

/-- Decimal value of one digit character, inverse of `Nat.digitChar` on
digits `0`–`9`. -/
def decChar (c : Char) : Nat := c.toNat - 48

/-- Accumulator step when reading a decimal digit string left to right. -/
def decStep (a : Nat) (c : Char) : Nat := 10 * a + decChar c

/-- Decimal value of a digit string, the left inverse of `Nat.toDigits 10`. -/
def decDigits (l : List Char) : Nat := l.foldl decStep 0

theorem decChar_digitChar : ∀ m < 10, decChar (Nat.digitChar m) = m := by decide

theorem toDigitsCore_eq_append (b : Nat) :
    ∀ (f n : Nat) (ds : List Char),
    Nat.toDigitsCore b f n ds = Nat.toDigitsCore b f n [] ++ ds := by
  intro f
  induction f with
  | zero => intro n ds; rfl
  | succ f ih =>
    intro n ds
    simp only [Nat.toDigitsCore]
    by_cases h : n / b = 0
    · simp [h]
    · simp only [h, if_false]
      rw [ih (n / b) (Nat.digitChar (n % b) :: ds), ih (n / b) [Nat.digitChar (n % b)]]
      simp

theorem decDigits_toDigitsCore :
    ∀ (f n : Nat), n < 10 ^ f → List.foldl decStep 0 (Nat.toDigitsCore 10 f n []) = n := by
  intro f
  induction f with
  | zero =>
    intro n hn
    interval_cases n
    rfl
  | succ f ih =>
    intro n hn
    simp only [Nat.toDigitsCore]
    by_cases h : n / 10 = 0
    · have hlt : n < 10 := by omega
      simp only [h, if_true]
      show decStep 0 (Nat.digitChar (n % 10)) = n
      have h10 : n % 10 = n := Nat.mod_eq_of_lt hlt
      simp only [decStep, Nat.mul_zero, Nat.zero_add, h10]
      exact decChar_digitChar n hlt
    · simp only [h, if_false]
      rw [toDigitsCore_eq_append 10 f (n / 10) [Nat.digitChar (n % 10)]]
      rw [List.foldl_append]
      rw [ih (n / 10) (Nat.nat_repr_len_aux n 10 f (by norm_num) hn)]
      show decStep (n / 10) (Nat.digitChar (n % 10)) = n
      simp only [decStep, decChar_digitChar (n % 10) (Nat.mod_lt n (by norm_num))]
      omega

theorem decDigits_toDigits (n : Nat) : decDigits (Nat.toDigits 10 n) = n := by
  have hn : n < 10 ^ (n + 1) :=
    lt_of_lt_of_le (Nat.lt_pow_self (by norm_num) n)
      (Nat.pow_le_pow_right (by norm_num) (Nat.le_succ n))
  exact decDigits_toDigitsCore (n + 1) n hn

/-- `str(n)` is injective on the naturals: distinct counter values give
distinct request-id strings. -/
theorem toString_nat_injective : Function.Injective (fun n : Nat => toString n) := by
  intro m n h
  have hd : Nat.toDigits 10 m = Nat.toDigits 10 n := congrArg String.data h
  have := congrArg decDigits hd
  simpa [decDigits_toDigits] using this

theorem submittedIds_nodup (c n : Nat) : (submittedIds c n).Nodup := by
  refine (List.nodup_range n).map ?_
  intro i j h
  have := toString_nat_injective h
  omega

theorem mem_submittedIds {x : String} {c n : Nat} :
    x ∈ submittedIds c n ↔ ∃ k, c ≤ k ∧ k < c + n ∧ x = toString k := by
  simp only [submittedIds, List.mem_map, List.mem_range]
  constructor
  · rintro ⟨i, hi, rfl⟩
    exact ⟨c + i, by omega, by omega, rfl⟩
  · rintro ⟨k, hck, hkn, rfl⟩
    exact ⟨k - c, by omega, by rw [Nat.add_sub_cancel' hck]⟩

/-- The value returned by the `k`-th allocator call (0-based) when the
counter currently holds `c`: each call yields `Counter.next`'s value and
threads its successor state. -/
def issued (c : Nat) : Nat → Nat
  | 0 => (Counter.next c).1
  | k + 1 => issued (Counter.next c).2 k

theorem issued_eq : ∀ (k c : Nat), issued c k = c + k := by
  intro k
  induction k with
  | zero => intro c; rfl
  | succ k ih => intro c; simp only [issued, Counter.next, ih]; omega

/-- All ids issued by a whole sequence of batch calls: call `i` submits
`calls[i]` requests, the counter threading through. -/
def idsOfCalls (c : Nat) : List Nat → List String
  | [] => []
  | n :: rest => submittedIds c n ++ idsOfCalls (c + n) rest

theorem mem_idsOfCalls :
    ∀ (calls : List Nat) (c : Nat) (x : String),
    x ∈ idsOfCalls c calls → ∃ k, c ≤ k ∧ x = toString k := by
  intro calls
  induction calls with
  | nil => intro c x h; simp [idsOfCalls] at h
  | cons n rest ih =>
    intro c x h
    rcases List.mem_append.1 h with h1 | h2
    · obtain ⟨k, hc, _, rfl⟩ := mem_submittedIds.1 h1
      exact ⟨k, hc, rfl⟩
    · obtain ⟨k, hc, rfl⟩ := ih (c + n) x h2
      exact ⟨k, by omega, rfl⟩

theorem idsOfCalls_nodup : ∀ (calls : List Nat) (c : Nat), (idsOfCalls c calls).Nodup := by
  intro calls
  induction calls with
  | nil => intro c; simp [idsOfCalls]
  | cons n rest ih =>
    intro c
    refine (submittedIds_nodup c n).append (ih (c + n)) ?_
    intro x hx hx'
    obtain ⟨k₁, _, hk₁, rfl⟩ := mem_submittedIds.1 hx
    obtain ⟨k₂, hk₂, he⟩ := mem_idsOfCalls rest (c + n) _ hx'
    have := toString_nat_injective he
    omega

theorem expectedCalls_append (sp : SamplingParams) (pl : Option (List String))
    (tl : Option (List (List Nat))) :
    ∀ (is js : List Nat) (c : Nat),
    expectedCalls sp pl tl (is ++ js) c
      = expectedCalls sp pl tl is c ++ expectedCalls sp pl tl js (c + is.length) := by
  intro is
  induction is with
  | nil => intro js c; simp [expectedCalls]
  | cons i is ih =>
    intro js c
    simp only [List.cons_append, expectedCalls, List.length_cons, List.append_eq]
    rw [ih js (c + 1)]
    have harith : c + 1 + is.length = c + (is.length + 1) := by omega
    rw [harith]

/-- Closed form of the expected submission log for a batch of `n`
requests: position `i` carries id `str(c + i)` and the positionally
selected inputs. -/
theorem expectedCalls_range (sp : SamplingParams) (pl : Option (List String))
    (tl : Option (List (List Nat))) :
    ∀ (n c : Nat),
    expectedCalls sp pl tl (List.range n) c
      = (List.range n).map fun i =>
          ⟨toString (c + i), pl.map fun l => l.getD i "", sp, tl.map fun l => l.getD i []⟩ := by
  intro n
  induction n with
  | zero => intro c; simp [expectedCalls]
  | succ n ih =>
    intro c
    rw [List.range_succ, expectedCalls_append, ih, List.map_append]
    simp [expectedCalls]

/-- A normally-returning `_run_engine` call: the outputs are the
finished outputs of the engine's step trace in completion order, the
event trace is one bar construction (with total = the unfinished count
at loop start), one `update 1` per output, and one `close`, and the
request counter is untouched. -/
theorem _run_engine_ok_eq {σ ε : Type} (ops : EngineOps σ ε) (fuel : Nat) (s : LLM σ)
    (q : Bool) (s' : LLM σ) (outs : List RequestOutput) (evs : List ProgressEvent) :
    _run_engine ops fuel s q = some (s', .ok (outs, evs)) →
    outs = ((stepTrace ops fuel s.aphrodite).map fun l => l.filter (·.finished)).flatten ∧
    evs = (if q then [ProgressEvent.init (ops.get_num_unfinished_requests s.aphrodite)]
           else [])
        ++ (if q then outs.map fun _ => ProgressEvent.update 1 else [])
        ++ (if q then [ProgressEvent.close] else []) ∧
    s'.request_counter = s.request_counter := by
  intro h
  unfold _run_engine at h
  cases hr : runLoop ops q fuel s.aphrodite []
      (if q then [ProgressEvent.init (ops.get_num_unfinished_requests s.aphrodite)] else []) with
  | none => rw [hr] at h; simp at h
  | some r =>
    obtain ⟨e, res⟩ := r
    rw [hr] at h
    cases res with
    | error err => simp at h
    | ok r0 =>
      obtain ⟨outs0, evs0⟩ := r0
      simp only [Option.some.injEq, Prod.mk.injEq, Except.ok.injEq] at h
      obtain ⟨hs', rfl, rfl⟩ := h
      obtain ⟨h1, h2⟩ := runLoop_ok_eq ops q fuel s.aphrodite [] _ e outs0 evs0 hr
      refine ⟨by simpa using h1, ?_, ?_⟩
      · rw [h2, h1]
        cases q <;> simp
      · rw [← hs']

/-- A `_run_engine` call that surfaces an engine error surfaces it
exactly as `step` produced it, from a state that still had unfinished
requests; the request counter is untouched. -/
theorem _run_engine_err_eq {σ ε : Type} (ops : EngineOps σ ε) (fuel : Nat) (s : LLM σ)
    (q : Bool) (s' : LLM σ) (err : ε) :
    _run_engine ops fuel s q = some (s', .error err) →
    ops.has_unfinished_requests s'.aphrodite = true ∧
    ops.step s'.aphrodite = .error err ∧
    s'.request_counter = s.request_counter := by
  intro h
  unfold _run_engine at h
  cases hr : runLoop ops q fuel s.aphrodite []
      (if q then [ProgressEvent.init (ops.get_num_unfinished_requests s.aphrodite)] else []) with
  | none => rw [hr] at h; simp at h
  | some r =>
    obtain ⟨e, res⟩ := r
    rw [hr] at h
    cases res with
    | ok r0 => obtain ⟨outs0, evs0⟩ := r0; simp at h
    | error err0 =>
      simp only [Option.some.injEq, Prod.mk.injEq, Except.error.injEq] at h
      obtain ⟨hs', rfl⟩ := h
      obtain ⟨hb, hstep⟩ := runLoop_err_eq ops q fuel s.aphrodite [] _ e err0 hr
      rw [← hs']
      exact ⟨hb, hstep, rfl⟩

theorem ite_true_eq {α : Type} (a b : α) : (if (true : Bool) then a else b) = a := rfl

theorem ite_false_eq {α : Type} (a b : α) : (if (false : Bool) then a else b) = b := rfl

/-- Toggling the progress bar never changes what `_run_engine` returns
apart from the event trace. -/
theorem _run_engine_tqdm_eq {σ ε : Type} (ops : EngineOps σ ε) (fuel : Nat) (s : LLM σ) :
    (_run_engine ops fuel s true).map (fun r => (r.1, r.2.map Prod.fst))
      = (_run_engine ops fuel s false).map (fun r => (r.1, r.2.map Prod.fst)) := by
  unfold _run_engine
  rw [ite_true_eq, ite_false_eq]
  have h := runLoop_tqdm_eq ops fuel s.aphrodite []
    [ProgressEvent.init (ops.get_num_unfinished_requests s.aphrodite)] []
  cases h1 : runLoop ops true fuel s.aphrodite []
      [ProgressEvent.init (ops.get_num_unfinished_requests s.aphrodite)] with
  | none =>
    rw [h1] at h
    cases h2 : runLoop ops false fuel s.aphrodite [] [] with
    | none => rfl
    | some r2 => rw [h2] at h; simp at h
  | some r1 =>
    rw [h1] at h
    cases h2 : runLoop ops false fuel s.aphrodite [] [] with
    | none => rw [h2] at h; simp at h
    | some r2 =>
      rw [h2] at h
      obtain ⟨e1, res1⟩ := r1
      obtain ⟨e2, res2⟩ := r2
      simp only [Option.map_some', Option.some.injEq, Prod.mk.injEq] at h
      obtain ⟨rfl, hres⟩ := h
      cases res1 with
      | error err1 =>
        cases res2 with
        | error err2 =>
          simp only [Except.map] at hres
          cases hres
          simp
        | ok r0 => simp [Except.map] at hres
      | ok r1 =>
        cases res2 with
        | error err2 => simp [Except.map] at hres
        | ok r2 =>
          obtain ⟨o1, v1⟩ := r1
          obtain ⟨o2, v2⟩ := r2
          simp only [Except.map, Except.ok.injEq] at hres
          subst hres
          simp [Except.map]

/-- With neither `prompts` nor `prompt_token_ids`, `generate` raises its
first `ValueError` immediately, leaving the state untouched. -/
theorem generate_none_none {σ ε : Type} (ops : EngineOps σ ε) (fuel : Nat) (s : LLM σ)
    (sp : Option SamplingParams) (q : Bool) :
    generate ops fuel s none sp none q
      = some (s, .error (.invalidArgument
          "Either prompts or prompt_token_ids must be provided.")) := by
  simp [generate]

/-- With both inputs present but of different (normalized) lengths,
`generate` raises its second `ValueError` immediately, leaving the state
untouched. -/
theorem generate_mismatch {σ ε : Type} (ops : EngineOps σ ε) (fuel : Nat) (s : LLM σ)
    (pr : Prompts) (sp : Option SamplingParams) (tl : List (List Nat)) (q : Bool)
    (hm : pr.toList.length ≠ tl.length) :
    generate ops fuel s (some pr) sp (some tl) q
      = some (s, .error (.invalidArgument
          "The lenghts of prompts and prompt_token_ids must be the same.")) := by
  simp [generate, lengthMismatch, hm]

/-- Once both validations pass, no branch of `generate` can produce an
`invalidArgument` error. -/
theorem generate_no_invalid {σ ε : Type} (ops : EngineOps σ ε) (fuel : Nat) (s : LLM σ)
    (p : Option Prompts) (sp : Option SamplingParams) (t : Option (List (List Nat))) (q : Bool)
    (hp : ¬(p.isNone ∧ t.isNone))
    (hm : lengthMismatch (p.map Prompts.toList) t = false) :
    ∀ s' msg, generate ops fuel s p sp t q ≠ some (s', .error (.invalidArgument msg)) := by
  intro s' msg hc
  simp only [generate, hp, hm, Bool.false_eq_true, if_false, ite_false] at hc
  cases hsub : submitLoop ops ((sp.getD {})) (p.map Prompts.toList) t
      (List.range (numRequests (p.map Prompts.toList) t)) s with
  | mk s₁ o =>
    rw [hsub] at hc
    cases o with
    | some err => simp at hc
    | none =>
      dsimp only at hc
      cases hre : _run_engine ops fuel s₁ q with
      | none => rw [hre] at hc; simp at hc
      | some r =>
        obtain ⟨s₂, res⟩ := r
        rw [hre] at hc
        cases res with
        | error err => simp at hc
        | ok r0 => obtain ⟨o1, v1⟩ := r0; simp at hc

/-- A trivial already-idle engine over unit state, for concrete
witnesses of the validation paths. -/
def unitOps : EngineOps Unit Unit where
  add_request := fun _ _ _ _ _ => .ok ()
  step := fun _ => .ok ([], ())
  has_unfinished_requests := fun _ => false
  get_num_unfinished_requests := fun _ => 0

/-- C2: `generate` raises `InvalidArgument` if and only if either both
`prompts` and `prompt_token_ids` are absent, or both are supplied and —
after a bare prompt string is treated as a one-element batch — their
lengths differ; and whenever it does, the returned state is exactly the
input state: the counter is unchanged and the engine (hence its
submission count, for any engine, including the instrumented one) is
untouched, so the error precedes any submission. -/
theorem claim_C2_invalid_argument {σ ε : Type} (ops : EngineOps σ ε) (fuel : Nat)
    (s : LLM σ) (p : Option Prompts) (sp : Option SamplingParams)
    (t : Option (List (List Nat))) (q : Bool) :
    ((∃ s' msg, generate ops fuel s p sp t q = some (s', .error (.invalidArgument msg)))
      ↔ ((p = none ∧ t = none) ∨
         ∃ pr tl, p = some pr ∧ t = some tl ∧ pr.toList.length ≠ tl.length))
    ∧ ∀ s' msg,
        generate ops fuel s p sp t q = some (s', .error (.invalidArgument msg)) → s' = s := by
  cases p with
  | none =>
    cases t with
    | none =>
      refine ⟨⟨fun _ => Or.inl ⟨rfl, rfl⟩, fun _ => ⟨s, _, generate_none_none ops fuel s sp q⟩⟩, ?_⟩
      intro s' msg h
      rw [generate_none_none ops fuel s sp q] at h
      simp only [Option.some.injEq, Prod.mk.injEq] at h
      exact h.1.symm
    | some tl =>
      have hp : ¬((none : Option Prompts).isNone ∧ (some tl).isNone) := by simp
      have hm : lengthMismatch ((none : Option Prompts).map Prompts.toList) (some tl) = false := rfl
      have hni := generate_no_invalid ops fuel s none sp (some tl) q hp hm
      refine ⟨⟨fun ⟨s', msg, h⟩ => absurd h (hni s' msg), ?_⟩, fun s' msg h => absurd h (hni s' msg)⟩
      rintro (⟨-, h⟩ | ⟨pr, tl', h, -, -⟩) <;> cases h
  | some pr =>
    cases t with
    | none =>
      have hp : ¬((some pr).isNone ∧ (none : Option (List (List Nat))).isNone) := by simp
      have hm : lengthMismatch ((some pr).map Prompts.toList) none = false := rfl
      have hni := generate_no_invalid ops fuel s (some pr) sp none q hp hm
      refine ⟨⟨fun ⟨s', msg, h⟩ => absurd h (hni s' msg), ?_⟩, fun s' msg h => absurd h (hni s' msg)⟩
      rintro (⟨h, -⟩ | ⟨pr', tl', -, h, -⟩) <;> cases h
    | some tl =>
      by_cases hlen : pr.toList.length = tl.length
      · have hp : ¬((some pr).isNone ∧ (some tl).isNone) := by simp
        have hm : lengthMismatch ((some pr).map Prompts.toList) (some tl) = false := by
          simp [lengthMismatch, hlen]
        have hni := generate_no_invalid ops fuel s (some pr) sp (some tl) q hp hm
        refine ⟨⟨fun ⟨s', msg, h⟩ => absurd h (hni s' msg), ?_⟩,
          fun s' msg h => absurd h (hni s' msg)⟩
        rintro (⟨h, -⟩ | ⟨pr', tl', hp', ht', hne⟩)
        · cases h
        · cases hp'; cases ht'; exact absurd hlen hne
      · constructor
        · constructor
          · intro _; exact Or.inr ⟨pr, tl, rfl, rfl, hlen⟩
          · intro _; exact ⟨s, _, generate_mismatch ops fuel s pr sp tl q hlen⟩
        · intro s' msg h
          rw [generate_mismatch ops fuel s pr sp tl q hlen] at h
          simp only [Option.some.injEq, Prod.mk.injEq] at h
          exact h.1.symm

/-- Witness for C2: the spec's two end-to-end failure scenarios — a
length mismatch (`["x","y"]` against three token lists) does raise
`InvalidArgument`, and absent inputs raise it before any engine
interaction with the state returned unchanged. -/
theorem claim_C2_witness :
    (∃ s' msg, generate unitOps 3 ⟨(), 0⟩ (some (.list ["x", "y"])) none
        (some [[1], [2], [3]]) true = some (s', .error (.invalidArgument msg))) ∧
    generate unitOps 3 ⟨(), 0⟩ none none none true
      = some (⟨(), 0⟩, .error (.invalidArgument
          "Either prompts or prompt_token_ids must be provided.")) := by
  constructor
  · exact (claim_C2_invalid_argument unitOps 3 ⟨(), 0⟩ (some (.list ["x", "y"])) none
      (some [[1], [2], [3]]) true).1.mpr (Or.inr ⟨_, _, rfl, rfl, by decide⟩)
  · rfl

/-- C5: calling `generate` with a bare prompt string is literally the
same computation as calling it with the one-element list containing that
string — same validation outcome, same submissions, same result. -/
theorem claim_C5_bare_string {σ ε : Type} (ops : EngineOps σ ε) (fuel : Nat) (s : LLM σ)
    (x : String) (sp : Option SamplingParams) (t : Option (List (List Nat))) (q : Bool) :
    generate ops fuel s (some (.str x)) sp t q
      = generate ops fuel s (some (.list [x])) sp t q := rfl

/-- Spec scenario output for prompt "a" (submitted first, id "0"). -/
def outA : RequestOutput := { request_id := "0", finished := true }

/-- Spec scenario output for prompt "b" (submitted second, id "1"). -/
def outB : RequestOutput := { request_id := "1", finished := true }

/-- Spec scenario output for prompt "c" (submitted third, id "2"). -/
def outC : RequestOutput := { request_id := "2", finished := true }

/-- Spec scenario fake engine: finishes "b" on step 1, then "a" and "c"
on step 2. -/
def scenarioEngine : ScriptedEngine := { pending := 0, script := [[outB], [outA, outC]] }

/-- A fresh driver over the scenario engine. -/
def scenarioLLM : LLM ScriptedEngine := { aphrodite := scenarioEngine, request_counter := 0 }

/-- C1: every normally-returning run returns exactly the finished
outputs of the engine's step trace, concatenated in the order the
engine reported them (completion order), all marked finished; and in the
spec's end-to-end scenario — prompts `["a","b","c"]`, a fake engine
finishing "b" on step 1 and "a","c" on step 2 — `generate` returns ids
`[id(b), id(a), id(c)]`, length 3, all finished: finish order, not
submission order. -/
theorem claim_C1_completion_order :
    (∀ (σ ε : Type) (ops : EngineOps σ ε) (fuel : Nat) (s : LLM σ) (q : Bool) s' outs evs,
      _run_engine ops fuel s q = some (s', .ok (outs, evs)) →
      outs = ((stepTrace ops fuel s.aphrodite).map fun l => l.filter (·.finished)).flatten ∧
      ∀ o ∈ outs, o.finished = true)
    ∧ generate (scriptedOps Unit) 2 scenarioLLM (some (.list ["a", "b", "c"])) none none true
        = some (⟨⟨0, []⟩, 3⟩, .ok ([outB, outA, outC],
            [ProgressEvent.init 3, ProgressEvent.update 1, ProgressEvent.update 1,
             ProgressEvent.update 1, ProgressEvent.close])) := by
  constructor
  · intro σ ε ops fuel s q s' outs evs h
    obtain ⟨h1, -, -⟩ := _run_engine_ok_eq ops fuel s q s' outs evs h
    refine ⟨h1, ?_⟩
    intro o ho
    rw [h1] at ho
    obtain ⟨l', hl', hol⟩ := List.mem_flatten.1 ho
    obtain ⟨l0, -, rfl⟩ := List.mem_map.1 hl'
    exact (List.mem_filter.1 hol).2
  · rfl

/-- Witness for C1: the scenario engine's poll loop evaluated concretely
— its outputs are the flattened finished step trace, all finished. -/
theorem claim_C1_witness :
    _run_engine (scriptedOps Unit) 2 (⟨⟨3, [[outB], [outA, outC]]⟩, 0⟩ : LLM ScriptedEngine) true
      = some (⟨⟨0, []⟩, 0⟩, .ok ([outB, outA, outC],
          [ProgressEvent.init 3, ProgressEvent.update 1, ProgressEvent.update 1,
           ProgressEvent.update 1, ProgressEvent.close])) ∧
    [outB, outA, outC]
      = ((stepTrace (scriptedOps Unit) 2
            ((⟨3, [[outB], [outA, outC]]⟩ : ScriptedEngine))).map
          fun l => l.filter (·.finished)).flatten ∧
    ∀ o ∈ [outB, outA, outC], o.finished = true := by
  refine ⟨rfl, ?_⟩
  exact (claim_C1_completion_order.1 ScriptedEngine Unit (scriptedOps Unit) 2
    ⟨⟨3, [[outB], [outA, outC]]⟩, 0⟩ true ⟨⟨0, []⟩, 0⟩ [outB, outA, outC]
    [ProgressEvent.init 3, ProgressEvent.update 1, ProgressEvent.update 1,
     ProgressEvent.update 1, ProgressEvent.close] rfl)

theorem count_map_const {α : Type} [DecidableEq α] (l : List RequestOutput) (a : α) :
    ((l.map fun _ => a).count a) = l.length := by
  induction l with
  | nil => rfl
  | cons x xs ih => simp [List.count_cons, ih]

/-- C7: with the bar enabled, a normally-returning poll loop produces
the event trace "one bar construction with total =
`get_num_unfinished_requests()` at loop start (whatever the engine holds
— not necessarily the batch size), then exactly one `update 1` per
returned output (advancement count = result length), then exactly one
`close`". -/
theorem claim_C7_progress_events {σ ε : Type} (ops : EngineOps σ ε) (fuel : Nat)
    (s : LLM σ) (s' : LLM σ) (outs : List RequestOutput) (evs : List ProgressEvent) :
    _run_engine ops fuel s true = some (s', .ok (outs, evs)) →
    evs = ProgressEvent.init (ops.get_num_unfinished_requests s.aphrodite)
          :: ((outs.map fun _ => ProgressEvent.update 1) ++ [ProgressEvent.close]) ∧
    evs.count (ProgressEvent.update 1) = outs.length ∧
    evs.count ProgressEvent.close = 1 ∧
    evs.count (ProgressEvent.init (ops.get_num_unfinished_requests s.aphrodite)) = 1 := by
  intro h
  obtain ⟨-, h2, -⟩ := _run_engine_ok_eq ops fuel s true s' outs evs h
  simp only [ite_true_eq] at h2
  have hform : evs = ProgressEvent.init (ops.get_num_unfinished_requests s.aphrodite)
      :: ((outs.map fun _ => ProgressEvent.update 1) ++ [ProgressEvent.close]) := by
    rw [h2]; simp
  refine ⟨hform, ?_, ?_, ?_⟩ <;> rw [hform]
  · simp [List.count_cons, List.count_append, count_map_const]
  · simp [List.count_cons, List.count_append, List.count_replicate]
  · simp [List.count_cons, List.count_append, List.count_replicate]

/-- Witness for C7: the scenario run's event trace, counted concretely:
three updates for three outputs, one close, one bar construction. -/
theorem claim_C7_witness :
    ([ProgressEvent.init 3, ProgressEvent.update 1, ProgressEvent.update 1,
      ProgressEvent.update 1, ProgressEvent.close].count (ProgressEvent.update 1)
        = [outB, outA, outC].length) ∧
    ([ProgressEvent.init 3, ProgressEvent.update 1, ProgressEvent.update 1,
      ProgressEvent.update 1, ProgressEvent.close].count ProgressEvent.close = 1) :=
  have h := claim_C7_progress_events (scriptedOps Unit) 2
    (⟨⟨3, [[outB], [outA, outC]]⟩, 0⟩ : LLM ScriptedEngine) ⟨⟨0, []⟩, 0⟩
    [outB, outA, outC]
    [ProgressEvent.init 3, ProgressEvent.update 1, ProgressEvent.update 1,
     ProgressEvent.update 1, ProgressEvent.close] rfl
  ⟨h.2.1, h.2.2.1⟩

/-- C8: progress reporting is purely observational — for every input and
every engine, `generate` with the bar enabled and disabled agree on
everything except the event trace: same fuel behaviour, same final
driver and engine state (hence the same engine interactions), same
outputs, same error. -/
theorem claim_C8_progress_purity {σ ε : Type} (ops : EngineOps σ ε) (fuel : Nat) (s : LLM σ)
    (p : Option Prompts) (sp : Option SamplingParams) (t : Option (List (List Nat))) :
    (generate ops fuel s p sp t true).map (fun r => (r.1, r.2.map Prod.fst))
      = (generate ops fuel s p sp t false).map (fun r => (r.1, r.2.map Prod.fst)) := by
  by_cases hp : p.isNone ∧ t.isNone
  · simp [generate, hp]
  · cases hm : lengthMismatch (p.map Prompts.toList) t with
    | true => simp [generate, hp, hm]
    | false =>
      simp only [generate, hp, hm, Bool.false_eq_true, if_false, ite_false]
      cases hsub : submitLoop ops (sp.getD {}) (p.map Prompts.toList) t
          (List.range (numRequests (p.map Prompts.toList) t)) s with
      | mk s₁ o =>
        cases o with
        | some err => rfl
        | none =>
          dsimp only
          have h := _run_engine_tqdm_eq ops fuel s₁
          cases h1 : _run_engine ops fuel s₁ true with
          | none =>
            cases h2 : _run_engine ops fuel s₁ false with
            | none => rfl
            | some r2 => rw [h1, h2] at h; simp at h
          | some r1 =>
            cases h2 : _run_engine ops fuel s₁ false with
            | none => rw [h1, h2] at h; simp at h
            | some r2 =>
              rw [h1, h2] at h
              obtain ⟨s2, res1⟩ := r1
              obtain ⟨s2', res2⟩ := r2
              simp only [Option.map_some', Option.some.injEq, Prod.mk.injEq] at h
              obtain ⟨rfl, hres⟩ := h
              cases res1 with
              | error e1 =>
                cases res2 with
                | error e2 => simp only [Except.map] at hres; cases hres; rfl
                | ok r => simp [Except.map] at hres
              | ok r1 =>
                cases res2 with
                | error e2 => simp [Except.map] at hres
                | ok r2 =>
                  obtain ⟨o1, v1⟩ := r1
                  obtain ⟨o2, v2⟩ := r2
                  simp only [Except.map, Except.ok.injEq] at hres
                  subst hres
                  simp [Except.map]

/-- `_run_engine` on the instrumented engine projects onto the base
engine, with the submission log carried through unchanged. -/
theorem _run_engine_instr_eq {σ ε : Type} (ops : EngineOps σ ε) (fuel : Nat) (e : σ)
    (log : List SubmitCall) (c : Nat) (q : Bool) :
    _run_engine (instrument ops) fuel ⟨(e, log), c⟩ q
      = (_run_engine ops fuel ⟨e, c⟩ q).map
          fun r => (⟨(r.1.aphrodite, log), r.1.request_counter⟩, r.2) := by
  unfold _run_engine
  rw [show ((⟨(e, log), c⟩ : LLM (σ × List SubmitCall)).aphrodite) = (e, log) from rfl]
  rw [runLoop_instr_eq]
  simp only [instrument]
  cases hr : runLoop ops q fuel e []
      (if q then [ProgressEvent.init (ops.get_num_unfinished_requests e)] else []) with
  | none => rfl
  | some r =>
    obtain ⟨e', res⟩ := r
    cases res with
    | error err => rfl
    | ok r0 => obtain ⟨o, v⟩ := r0; rfl

/-- A submission loop that ends in an engine error ends right at the
failing `add_request` call: the returned state's engine is the one that
call rejected, the failing request id is the last id drawn, and the
error is the engine's own. -/
theorem submitLoop_err_last {σ ε : Type} (ops : EngineOps σ ε) (sp : SamplingParams)
    (pl : Option (List String)) (tl : Option (List (List Nat))) :
    ∀ (is : List Nat) (s s' : LLM σ) (err : ε),
    submitLoop ops sp pl tl is s = (s', some err) →
    ∃ pr tid, ops.add_request s'.aphrodite (toString (s'.request_counter - 1)) pr sp tid
      = .error err := by
  intro is
  induction is with
  | nil => intro s s' err h; simp [submitLoop] at h
  | cons i is ih =>
    intro s s' err h
    simp only [submitLoop] at h
    cases ha : _add_request ops s (pl.map fun l => l.getD i "") sp (tl.map fun l => l.getD i []) with
    | mk s₁ o =>
      rw [ha] at h
      cases o with
      | none => exact ih s₁ s' err h
      | some err0 =>
        simp only [Option.some.injEq, Prod.mk.injEq] at h
        obtain ⟨rfl, rfl⟩ := h
        unfold _add_request Counter.next at ha
        dsimp only at ha
        cases hadd : ops.add_request s.aphrodite (toString s.request_counter)
            (pl.map fun l => l.getD i "") sp (tl.map fun l => l.getD i []) with
        | ok e => rw [hadd] at ha; simp at ha
        | error err1 =>
          rw [hadd] at ha
          simp only [Prod.mk.injEq, Option.some.injEq] at ha
          obtain ⟨ha1, rfl⟩ := ha
          rw [← ha1]
          exact ⟨pl.map fun l => l.getD i "", tl.map fun l => l.getD i [], by simpa using hadd⟩

/-- An engine with no unfinished requests makes the poll loop exit at
once, for every fuel value. -/
theorem runLoop_idle {σ ε : Type} (ops : EngineOps σ ε) (q : Bool) (fuel : Nat) (e : σ)
    (acc : List RequestOutput) (evs : List ProgressEvent)
    (hb : ops.has_unfinished_requests e = false) :
    runLoop ops q fuel e acc evs = some (e, .ok (acc, evs)) := by
  cases fuel <;> simp [runLoop, hb]

/-- An engine whose `step` always raises, for witnessing error
propagation. -/
def failStepOps : EngineOps Unit String where
  add_request := fun _ _ _ _ _ => .ok ()
  step := fun _ => .error "engine failure"
  has_unfinished_requests := fun _ => true
  get_num_unfinished_requests := fun _ => 1

/-- C3: for any prompt batch submitted without token ids, if the run
returns normally and the engine kept its contract — the finished
outputs along the loop's step trace are exactly the submitted ids, each
exactly once (no pre-existing requests, none dropped or duplicated) —
then `generate` returns exactly one output per input prompt and the
returned ids contain no duplicates. -/
theorem claim_C3_exactly_once {σ ε : Type} (ops : EngineOps σ ε) (fuel : Nat) (s : LLM σ)
    (l : List String) (sp : Option SamplingParams) (q : Bool) (s₁ s' : LLM σ)
    (outs : List RequestOutput) (evs : List ProgressEvent) :
    l ≠ [] →
    submitLoop ops (sp.getD {}) (some l) none (List.range l.length) s = (s₁, none) →
    generate ops fuel s (some (.list l)) sp none q = some (s', .ok (outs, evs)) →
    (((stepTrace ops fuel s₁.aphrodite).map fun xs => xs.filter (·.finished)).flatten.map
        (·.request_id)).Perm (submittedIds s.request_counter l.length) →
    outs.length = l.length ∧ (outs.map (·.request_id)).Nodup := by
  intro hne hsub h hperm
  have hp : ¬((some (Prompts.list l)).isNone ∧ (none : Option (List (List Nat))).isNone) := by
    simp
  have hm : lengthMismatch (some l) none = false := rfl
  simp only [generate, hp, Bool.false_eq_true, if_false, ite_false,
    Option.map_some', Prompts.toList, numRequests, hm] at h
  rw [hsub] at h
  dsimp only at h
  cases hre : _run_engine ops fuel s₁ q with
  | none => rw [hre] at h; simp at h
  | some r2 =>
    obtain ⟨s₂, res⟩ := r2
    rw [hre] at h
    cases res with
    | error err => simp at h
    | ok r0 =>
      obtain ⟨o1, v1⟩ := r0
      simp only [Option.some.injEq, Prod.mk.injEq, Except.ok.injEq] at h
      obtain ⟨-, rfl, -⟩ := h
      obtain ⟨h1, -, -⟩ := _run_engine_ok_eq ops fuel s₁ q s₂ o1 v1 hre
      rw [h1]
      have hlen := hperm.length_eq
      have hnd := (hperm.nodup_iff).2 (submittedIds_nodup s.request_counter l.length)
      rw [← h1]
      constructor
      · have : (o1.map (·.request_id)).length = o1.length := List.length_map o1 _
        rw [h1] at this ⊢
        have hsub_len : (submittedIds s.request_counter l.length).length = l.length := by
          simp [submittedIds]
        omega
      · rw [h1]
        exact hnd

/-- Witness for C3: the a/b/c scenario run — three prompts, three
outputs, no duplicate ids, with the engine-contract permutation
hypothesis checked by computation. -/
theorem claim_C3_witness :
    [outB, outA, outC].length = (["a", "b", "c"] : List String).length ∧
    ([outB, outA, outC].map (·.request_id)).Nodup :=
  claim_C3_exactly_once (scriptedOps Unit) 2 scenarioLLM ["a", "b", "c"] none true
    ⟨⟨3, [[outB], [outA, outC]]⟩, 3⟩ ⟨⟨0, []⟩, 3⟩ [outB, outA, outC]
    [ProgressEvent.init 3, ProgressEvent.update 1, ProgressEvent.update 1,
     ProgressEvent.update 1, ProgressEvent.close]
    (by decide) rfl rfl (by decide)

/-- C4: request-id allocation is strictly monotone — the `k`-th
allocator call returns a strictly larger value than every earlier call —
so the ids issued across any sequence of `generate` calls (each batch
taking `submittedIds c n` and advancing the counter by `n`, as the third
conjunct proves against the instrumented engine) are pairwise distinct
for the lifetime of the instance. -/
theorem claim_C4_request_ids :
    (∀ c k₁ k₂ : Nat, k₁ < k₂ → issued c k₁ < issued c k₂)
    ∧ (∀ (c : Nat) (calls : List Nat), (idsOfCalls c calls).Nodup)
    ∧ (∀ (σ ε : Type) (ops : EngineOps σ ε) (fuel : Nat) (e : σ) (log : List SubmitCall)
        (c : Nat) (p : Option Prompts) (sp : Option SamplingParams)
        (t : Option (List (List Nat))) (q : Bool) (s' : LLM (σ × List SubmitCall))
        (r : List RequestOutput × List ProgressEvent),
        generate (instrument ops) fuel ⟨(e, log), c⟩ p sp t q = some (s', .ok r) →
        s'.aphrodite.2.map (·.request_id) = log.map (·.request_id)
          ++ submittedIds c (numRequests (p.map Prompts.toList) t)
        ∧ s'.request_counter = c + numRequests (p.map Prompts.toList) t) := by
  refine ⟨?_, fun c calls => idsOfCalls_nodup calls c, ?_⟩
  · intro c k₁ k₂ hk
    rw [issued_eq, issued_eq]
    omega
  · intro σ ε ops fuel e log c p sp t q s' r h
    by_cases hp : p.isNone ∧ t.isNone
    · simp [generate, hp] at h
    · cases hm : lengthMismatch (p.map Prompts.toList) t with
      | true => simp only [generate, hp, hm, if_true] at h; split at h <;> simp at h
      | false =>
        simp only [generate, hp, hm, Bool.false_eq_true, if_false, ite_false] at h
        cases hsub : submitLoop (instrument ops) (sp.getD {}) (p.map Prompts.toList) t
            (List.range (numRequests (p.map Prompts.toList) t)) ⟨(e, log), c⟩ with
        | mk s₁ o =>
          rw [hsub] at h
          cases o with
          | some err => simp at h
          | none =>
            dsimp only at h
            have hlog := submitLoop_instr_log ops (sp.getD {}) (p.map Prompts.toList) t
              (List.range (numRequests (p.map Prompts.toList) t)) e log c s₁ hsub
            rw [expectedCalls_range] at hlog
            have hcnt := submitLoop_ok_counter (instrument ops) (sp.getD {})
              (p.map Prompts.toList) t (List.range (numRequests (p.map Prompts.toList) t))
              ⟨(e, log), c⟩ s₁ hsub
            obtain ⟨⟨e₁, log₁⟩, c₁⟩ := s₁
            rw [_run_engine_instr_eq] at h
            cases hre : _run_engine ops fuel ⟨e₁, c₁⟩ q with
            | none => rw [hre] at h; simp at h
            | some r2 =>
              obtain ⟨s₂, res⟩ := r2
              rw [hre] at h
              cases res with
              | error err => simp at h
              | ok r0 =>
                obtain ⟨o1, v1⟩ := r0
                simp only [Option.map_some', Option.some.injEq, Prod.mk.injEq] at h
                obtain ⟨h1, -⟩ := h
                subst h1
                obtain ⟨-, -, hc2⟩ := _run_engine_ok_eq ops fuel ⟨e₁, c₁⟩ q s₂ o1 v1 hre
                constructor
                · simp only at hlog
                  simp only [hlog, List.map_append, List.map_map, submittedIds]
                  rfl
                · simp only at hcnt
                  simp only [hc2, List.length_range] at *
                  omega

/-- Witness for C4: strictly increasing allocator values, disjoint id
blocks across two consecutive calls (2 then 3 requests), and a concrete
instrumented run starting at counter 5 logging ids "5","6" and leaving
the counter at 7. -/
theorem claim_C4_witness :
    (issued 0 0 < issued 0 1)
    ∧ (idsOfCalls 0 [2, 3]).Nodup
    ∧ ((⟨((), [⟨"5", some "p", {}, none⟩, ⟨"6", some "q", {}, none⟩]), 7⟩ :
          LLM (Unit × List SubmitCall)).aphrodite.2.map (·.request_id)
        = ([] : List SubmitCall).map (·.request_id)
          ++ submittedIds 5 (numRequests ((some (Prompts.list ["p", "q"])).map Prompts.toList)
              none))
    ∧ ((⟨((), [⟨"5", some "p", {}, none⟩, ⟨"6", some "q", {}, none⟩]), 7⟩ :
          LLM (Unit × List SubmitCall)).request_counter
        = 5 + numRequests ((some (Prompts.list ["p", "q"])).map Prompts.toList) none) := by
  have h3 := claim_C4_request_ids.2.2 Unit Unit unitOps 1 () [] 5
    (some (.list ["p", "q"])) none none false
    ⟨((), [⟨"5", some "p", {}, none⟩, ⟨"6", some "q", {}, none⟩]), 7⟩ ([], []) rfl
  exact ⟨claim_C4_request_ids.1 0 0 1 (by decide), claim_C4_request_ids.2.1 0 [2, 3],
    h3.1, h3.2⟩

/-- C6: on every valid batch that runs to completion, the driver's
submissions to the engine are exactly one per request, in input order:
the `i`-th call carries id `str(c+i)`, `prompts[i]` (or no prompt when
only token ids were given), `prompt_token_ids[i]` (or none), and the one
shared sampling configuration — the caller's, or the default when
omitted. -/
theorem claim_C6_submission_order {σ ε : Type} (ops : EngineOps σ ε) (fuel : Nat) (e : σ)
    (log : List SubmitCall) (c : Nat) (p : Option Prompts) (sp : Option SamplingParams)
    (t : Option (List (List Nat))) (q : Bool) (s' : LLM (σ × List SubmitCall))
    (r : List RequestOutput × List ProgressEvent) :
    generate (instrument ops) fuel ⟨(e, log), c⟩ p sp t q = some (s', .ok r) →
    s'.aphrodite.2 = log
      ++ (List.range (numRequests (p.map Prompts.toList) t)).map fun i =>
        ⟨toString (c + i), (p.map Prompts.toList).map fun l => l.getD i "", sp.getD {},
         t.map fun l => l.getD i []⟩ := by
  intro h
  by_cases hp : p.isNone ∧ t.isNone
  · simp [generate, hp] at h
  · cases hm : lengthMismatch (p.map Prompts.toList) t with
    | true => simp only [generate, hp, hm, if_true] at h; split at h <;> simp at h
    | false =>
      simp only [generate, hp, hm, Bool.false_eq_true, if_false, ite_false] at h
      cases hsub : submitLoop (instrument ops) (sp.getD {}) (p.map Prompts.toList) t
          (List.range (numRequests (p.map Prompts.toList) t)) ⟨(e, log), c⟩ with
      | mk s₁ o =>
        rw [hsub] at h
        cases o with
        | some err => simp at h
        | none =>
          dsimp only at h
          have hlog := submitLoop_instr_log ops (sp.getD {}) (p.map Prompts.toList) t
            (List.range (numRequests (p.map Prompts.toList) t)) e log c s₁ hsub
          rw [expectedCalls_range] at hlog
          obtain ⟨⟨e₁, log₁⟩, c₁⟩ := s₁
          rw [_run_engine_instr_eq] at h
          cases hre : _run_engine ops fuel ⟨e₁, c₁⟩ q with
          | none => rw [hre] at h; simp at h
          | some r2 =>
            obtain ⟨s₂, res⟩ := r2
            rw [hre] at h
            cases res with
            | error err => simp at h
            | ok r0 =>
              obtain ⟨o1, v1⟩ := r0
              simp only [Option.map_some', Option.some.injEq, Prod.mk.injEq] at h
              obtain ⟨h1, -⟩ := h
              subst h1
              simpa using hlog

/-- Witness for C6: a concrete two-prompt batch against the logging
engine — the log is exactly the two expected calls in input order. -/
theorem claim_C6_witness :
    ((⟨((), [⟨"0", some "a", {}, none⟩, ⟨"1", some "b", {}, none⟩]), 2⟩ :
        LLM (Unit × List SubmitCall)).aphrodite.2
      = [] ++ (List.range (numRequests ((some (Prompts.list ["a", "b"])).map Prompts.toList)
            none)).map fun i =>
          ⟨toString (0 + i),
           ((some (Prompts.list ["a", "b"])).map Prompts.toList).map fun l => l.getD i "",
           (none : Option SamplingParams).getD {},
           (none : Option (List (List Nat))).map fun l => l.getD i []⟩) :=
  claim_C6_submission_order unitOps 1 () [] 0 (some (.list ["a", "b"])) none none false
    ⟨((), [⟨"0", some "a", {}, none⟩, ⟨"1", some "b", {}, none⟩]), 2⟩ ([], []) rfl

/-- C9: whenever `generate` surfaces an engine error, that error is
verbatim one the engine itself produced — either a `step` raised at the
returned state (which still had unfinished requests) or the last
`add_request` call was rejected — and no result list accompanies it:
the same call cannot also return an `ok` outcome, so already-collected
outputs are lost. -/
theorem claim_C9_engine_error {σ ε : Type} (ops : EngineOps σ ε) (fuel : Nat) (s : LLM σ)
    (p : Option Prompts) (sp : Option SamplingParams) (t : Option (List (List Nat)))
    (q : Bool) (s' : LLM σ) (err : ε) :
    generate ops fuel s p sp t q = some (s', .error (.engine err)) →
    ((ops.has_unfinished_requests s'.aphrodite = true ∧ ops.step s'.aphrodite = .error err)
      ∨ ∃ pr tid, ops.add_request s'.aphrodite (toString (s'.request_counter - 1)) pr
          (sp.getD {}) tid = .error err)
    ∧ ∀ (s'' : LLM σ) outs evs, generate ops fuel s p sp t q ≠ some (s'', .ok (outs, evs)) := by
  intro h
  refine ⟨?_, ?_⟩
  swap
  · intro s'' outs evs hc
    rw [h] at hc
    simp at hc
  by_cases hp : p.isNone ∧ t.isNone
  · simp [generate, hp] at h
  · cases hm : lengthMismatch (p.map Prompts.toList) t with
    | true => simp only [generate, hp, hm, if_true] at h; split at h <;> simp at h
    | false =>
      simp only [generate, hp, hm, Bool.false_eq_true, if_false, ite_false] at h
      cases hsub : submitLoop ops (sp.getD {}) (p.map Prompts.toList) t
          (List.range (numRequests (p.map Prompts.toList) t)) s with
      | mk s₁ o =>
        rw [hsub] at h
        cases o with
        | some err0 =>
          simp only [Option.some.injEq, Prod.mk.injEq, Except.error.injEq,
            GenError.engine.injEq] at h
          obtain ⟨rfl, rfl⟩ := h
          exact Or.inr (submitLoop_err_last ops (sp.getD {}) (p.map Prompts.toList) t
            (List.range (numRequests (p.map Prompts.toList) t)) s s₁ err0 hsub)
        | none =>
          dsimp only at h
          cases hre : _run_engine ops fuel s₁ q with
          | none => rw [hre] at h; simp at h
          | some r2 =>
            obtain ⟨s₂, res⟩ := r2
            rw [hre] at h
            cases res with
            | ok r0 => obtain ⟨o1, v1⟩ := r0; simp at h
            | error err0 =>
              simp only [Option.some.injEq, Prod.mk.injEq, Except.error.injEq,
                GenError.engine.injEq] at h
              obtain ⟨rfl, rfl⟩ := h
              obtain ⟨hb, hstep, -⟩ := _run_engine_err_eq ops fuel s₁ q s₂ err0 hre
              exact Or.inl ⟨hb, hstep⟩

/-- Witness for C9: a concrete engine whose `step` raises — `generate`
surfaces exactly that error and cannot also return a result list. -/
theorem claim_C9_witness :
    ((failStepOps.has_unfinished_requests ((⟨(), 1⟩ : LLM Unit).aphrodite) = true ∧
      failStepOps.step ((⟨(), 1⟩ : LLM Unit).aphrodite) = .error "engine failure")
      ∨ ∃ pr tid, failStepOps.add_request ((⟨(), 1⟩ : LLM Unit).aphrodite)
          (toString ((⟨(), 1⟩ : LLM Unit).request_counter - 1)) pr
          ((none : Option SamplingParams).getD {}) tid = .error "engine failure")
    ∧ ∀ (s'' : LLM Unit) outs evs,
        generate failStepOps 1 ⟨(), 0⟩ (some (.list ["a"])) none none false
          ≠ some (s'', .ok (outs, evs)) :=
  claim_C9_engine_error failStepOps 1 ⟨(), 0⟩ (some (.list ["a"])) none none false
    ⟨(), 1⟩ "engine failure" rfl

/-- C10: an empty prompt list is a valid batch: `generate` never raises
`InvalidArgument` for it, and — for every engine state, busy or idle —
it leaves the request counter unchanged and performs zero submissions
(the instrumented log is untouched); when the engine additionally has no
pre-existing unfinished requests, the call returns the empty list with
the whole state unchanged. -/
theorem claim_C10_empty_batch {σ ε : Type} (ops : EngineOps σ ε) (fuel : Nat) (s : LLM σ)
    (q : Bool) :
    (∀ (s' : LLM σ) (msg : String),
      generate ops fuel s (some (.list [])) none none q
        ≠ some (s', .error (.invalidArgument msg)))
    ∧ (∀ (s' : LLM σ) (r : Except (GenError ε) (List RequestOutput × List ProgressEvent)),
        generate ops fuel s (some (.list [])) none none q = some (s', r) →
        s'.request_counter = s.request_counter)
    ∧ (∀ (e : σ) (log : List SubmitCall) (c : Nat) (s' : LLM (σ × List SubmitCall))
        (r : Except (GenError ε) (List RequestOutput × List ProgressEvent)),
        generate (instrument ops) fuel ⟨(e, log), c⟩ (some (.list [])) none none q
          = some (s', r) →
        s'.aphrodite.2 = log)
    ∧ (ops.has_unfinished_requests s.aphrodite = false →
       generate ops fuel s (some (.list [])) none none q
         = some (s, .ok ([],
             if q then [ProgressEvent.init (ops.get_num_unfinished_requests s.aphrodite),
                        ProgressEvent.close] else []))) := by
  have hp : ¬((some (Prompts.list [])).isNone ∧ (none : Option (List (List Nat))).isNone) := by
    simp
  have hm : lengthMismatch (some ([] : List String)) none = false := rfl
  refine ⟨?_, ?_, ?_, ?_⟩
  · exact generate_no_invalid ops fuel s (some (.list [])) none none q (by simp) rfl
  · intro s' r h
    simp only [generate, hp, Bool.false_eq_true, if_false, ite_false,
      Option.map_some', Prompts.toList, numRequests, hm] at h
    rw [show List.range (List.length ([] : List String)) = [] from rfl] at h
    rw [show submitLoop ops ((none : Option SamplingParams).getD {}) (some []) none [] s
        = (s, none) from rfl] at h
    dsimp only at h
    cases hre : _run_engine ops fuel s q with
    | none => rw [hre] at h; simp at h
    | some r2 =>
      obtain ⟨s₂, res⟩ := r2
      rw [hre] at h
      cases res with
      | error err =>
        simp only [Option.some.injEq, Prod.mk.injEq] at h
        obtain ⟨rfl, -⟩ := h
        exact (_run_engine_err_eq ops fuel s q s₂ err hre).2.2
      | ok r0 =>
        obtain ⟨o1, v1⟩ := r0
        simp only [Option.some.injEq, Prod.mk.injEq] at h
        obtain ⟨rfl, -⟩ := h
        exact (_run_engine_ok_eq ops fuel s q s₂ o1 v1 hre).2.2
  · intro e log c s' r h
    simp only [generate, hp, Bool.false_eq_true, if_false, ite_false,
      Option.map_some', Prompts.toList, numRequests, hm] at h
    rw [show List.range (List.length ([] : List String)) = [] from rfl] at h
    rw [show submitLoop (instrument ops) ((none : Option SamplingParams).getD {}) (some [])
        none [] ⟨(e, log), c⟩ = (⟨(e, log), c⟩, none) from rfl] at h
    dsimp only at h
    rw [_run_engine_instr_eq] at h
    cases hre : _run_engine ops fuel ⟨e, c⟩ q with
    | none => rw [hre] at h; simp at h
    | some r2 =>
      obtain ⟨s₂, res⟩ := r2
      rw [hre] at h
      cases res with
      | error err =>
        simp only [Option.map_some', Option.some.injEq, Prod.mk.injEq] at h
        obtain ⟨rfl, -⟩ := h
        rfl
      | ok r0 =>
        obtain ⟨o1, v1⟩ := r0
        simp only [Option.map_some', Option.some.injEq, Prod.mk.injEq] at h
        obtain ⟨rfl, -⟩ := h
        rfl
  · intro hb
    simp only [generate, hp, Bool.false_eq_true, if_false, ite_false,
      Option.map_some', Prompts.toList, numRequests, hm]
    rw [show List.range (List.length ([] : List String)) = [] from rfl]
    rw [show submitLoop ops ((none : Option SamplingParams).getD {}) (some []) none [] s
        = (s, none) from rfl]
    dsimp only
    unfold _run_engine
    rw [runLoop_idle ops q fuel s.aphrodite [] _ hb]
    cases q <;> simp

/-- Witness for C10, exercising both regimes: a busy engine (one
pre-existing unfinished request) given the empty batch keeps the counter
at 4 and the submission log empty while returning that pre-existing
output, and an idle engine returns the empty list with the state
unchanged. -/
theorem claim_C10_witness :
    ((⟨⟨0, []⟩, 4⟩ : LLM ScriptedEngine).request_counter
        = (⟨⟨1, [[outB]]⟩, 4⟩ : LLM ScriptedEngine).request_counter)
    ∧ ((⟨(⟨0, []⟩, []), 4⟩ : LLM (ScriptedEngine × List SubmitCall)).aphrodite.2
        = ([] : List SubmitCall))
    ∧ unitOps.has_unfinished_requests ((⟨(), 7⟩ : LLM Unit).aphrodite) = false
    ∧ generate unitOps 0 ⟨(), 7⟩ (some (.list [])) none none true
      = some (⟨(), 7⟩, .ok ([], [ProgressEvent.init 0, ProgressEvent.close])) := by
  refine ⟨?_, ?_, rfl, ?_⟩
  · exact (claim_C10_empty_batch (scriptedOps Unit) 1 ⟨⟨1, [[outB]]⟩, 4⟩ false).2.1
      ⟨⟨0, []⟩, 4⟩ (.ok ([outB], [])) rfl
  · exact (claim_C10_empty_batch (scriptedOps Unit) 1 ⟨⟨1, [[outB]]⟩, 4⟩ false).2.2.1
      ⟨1, [[outB]]⟩ [] 4 ⟨(⟨0, []⟩, []), 4⟩ (.ok ([outB], [])) rfl
  · have h := (claim_C10_empty_batch unitOps 0 ⟨(), 7⟩ true).2.2.2 rfl
    simpa using h

end Aphrodite
